import Mathlib

/-!
Shallow embedding of `src/myinmemoryfs.cpp` (class `MyInMemoryFS`), the
in-memory single-level FUSE filesystem of the bslab repository.

Modelling choices, all read off the source:
* `std::unordered_map<std::string, MyFsFileInfo> files` is embedded as an
  association list `List (String × MyFsFileInfo)`; `files.find`,
  `files[k] = v` (insert-or-replace of the entry with key `k`) and
  `files.erase(k)` are `findFile`, `insertFile`, `eraseFile`.
* the content buffer `char *data` together with `size` is a `List Nat`
  of byte values; `realloc(data, n)` is `resizeBuf data n`, which keeps
  the common prefix and models the fresh (uninitialized in C) bytes as
  zero bytes — no claim below observes the fresh bytes, so the choice of
  fill value is immaterial; `memmove(data + offset, buf, n)` on a buffer
  of sufficient length is `writeBytes data offset buf`.
* `size_t` subtraction in `fuseRead` wraps modulo `2 ^ 64`
  (`sizeTSub`); this is where the source can underflow when
  `offset > size`.
* the uncaught `std::out_of_range` thrown by `files.at(path)` in
  `fuseRename` is modelled by returning `none` (abnormal termination, no
  result state); every normally returning operation yields `some` of an
  `Int` status (negative on failure, exactly as in the C code) and the
  state after the call.
* `off_t` offsets are taken non-negative (`Nat`), as delivered by FUSE;
  `uid_t`/`gid_t` are unsigned, so the source's `uid >= 0` / `gid >= 0`
  guards in `fuseChown` are always-true comparisons on `Nat`.
* the boundary constants `NAME_LENGTH`, `NUM_DIR_ENTRIES`,
  `NUM_OPEN_FILES` live in `myfs-info.h`, which is not among the
  reviewed sources; they are carried as an abstract `Config`, fixed per
  run, exactly as the build-time constants are.
-/

/-- Build-time boundary constants from `myfs-info.h` (values not fixed by the
reviewed sources; every statement is parametric in them). -/
structure Config where
  NAME_LENGTH : Nat
  NUM_DIR_ENTRIES : Nat
  NUM_OPEN_FILES : Nat
deriving Repr, DecidableEq

/-- One file's metadata and content, mirroring `struct MyFsFileInfo`:
`name` (the path without the leading slash), `permissions`, `owner`,
`group`, `size`, the content buffer `data` (kept as a byte list whose
length plays the role of the allocation size), and three timestamps. -/
structure MyFsFileInfo where
  name : String
  permissions : Nat
  owner : Nat
  group : Nat
  size : Nat
  data : List Nat
  lastAccess : Nat
  lastModification : Nat
  lastStatusChange : Nat
deriving Repr, DecidableEq

/-- The whole mutable state of `MyInMemoryFS`: the map
`files : std::unordered_map<std::string, MyFsFileInfo>` (as an association
list keyed by the full path, leading slash included) and the static counter
`openFilesCount : unsigned int` (as a `Nat`, so it cannot go negative —
just as the C `unsigned int` cannot). -/
structure FsState where
  files : List (String × MyFsFileInfo)
  openFilesCount : Nat
deriving Repr, DecidableEq

/-- Lookup in the file map: `files.find(p)` returning the mapped record. -/
def findFile : List (String × MyFsFileInfo) → String → Option MyFsFileInfo
  | [], _ => none
  | (q, fi) :: rest, p => if q = p then some fi else findFile rest p

/-- Insert-or-replace, `files[p] = v`: replaces the entry with key `p` if
present, otherwise appends a new entry. -/
def insertFile : List (String × MyFsFileInfo) → String → MyFsFileInfo → List (String × MyFsFileInfo)
  | [], p, v => [(p, v)]
  | (q, fi) :: rest, p, v => if q = p then (q, v) :: rest else (q, fi) :: insertFile rest p v

/-- Removal, `files.erase(p)`: removes the entry with key `p` if present. -/
def eraseFile : List (String × MyFsFileInfo) → String → List (String × MyFsFileInfo)
  | [], _ => []
  | (q, fi) :: rest, p => if q = p then rest else (q, fi) :: eraseFile rest p

/-- Keys of the file map, used to state the no-duplicate-names invariant. -/
def filesKeys : List (String × MyFsFileInfo) → List String
  | [] => []
  | (q, _) :: rest => q :: filesKeys rest

/-- errno value `ENOENT` (no such file or directory). -/
def ENOENT : Int := 2

/-- errno value `EEXIST` (file exists). -/
def EEXIST : Int := 17

/-- errno value `EMFILE` (too many open files). -/
def EMFILE : Int := 24

/-- errno value `ENOSPC` (no space left on device). -/
def ENOSPC : Int := 28

/-- errno value `ENAMETOOLONG` (file name too long). -/
def ENAMETOOLONG : Int := 36

/-- File-type bit `S_IFREG` (regular file), octal `0100000`. -/
def S_IFREG : Nat := 0o100000

/-- File-type bit `S_IFDIR` (directory), octal `0040000`. -/
def S_IFDIR : Nat := 0o040000

/-- Modulus of `size_t` / 64-bit unsigned arithmetic. -/
def SIZE_T_MOD : Nat := 2 ^ 64

/-- Wrapping `size_t` subtraction `a - b` (modulo `2 ^ 64`), exactly the
arithmetic the source performs in `files[path].size - offset`. -/
def sizeTSub (a b : Nat) : Nat :=
  (((a : Int) - (b : Int)) % (SIZE_T_MOD : Int)).toNat

/-- Model of `realloc(data, newLen)`: the result has exactly `newLen` bytes,
the prefix shared with the old buffer is preserved, bytes past the old
length are fresh (uninitialized in C; modelled as zero bytes, which no
claim observes). -/
def resizeBuf (data : List Nat) (newLen : Nat) : List Nat :=
  data.take newLen ++ List.replicate (newLen - data.length) 0

/-- Model of `memmove(data + offset, buf, buf.length)` on a destination
buffer `data` (meaningful when `offset + buf.length ≤ data.length`, which
holds at the single call site after the growth step). -/
def writeBytes (data : List Nat) (offset : Nat) (buf : List Nat) : List Nat :=
  data.take offset ++ buf ++ data.drop (offset + buf.length)

/-- `MyInMemoryFS::fuseMknod` (myinmemoryfs.cpp:67): name-length check
(`strlen(path + 1) > NAME_LENGTH`, for the ASCII names considered here the
byte count is the character count of `path.drop 1`), existence check,
capacity check, then insertion of a fresh size-0 record with the requested
permissions and all three timestamps set to `now` (`time(NULL)`).
Fields `owner`/`group` are left default-initialized (0) as in the C
default-constructed `MyFsFileInfo`. -/
def fuseMknod (cfg : Config) (s : FsState) (path : String) (mode : Nat) (now : Nat) :
    Int × FsState :=
  if (path.drop 1).length > cfg.NAME_LENGTH then (-ENAMETOOLONG, s)
  else if (findFile s.files path).isSome then (-EEXIST, s)
  else if s.files.length ≥ cfg.NUM_DIR_ENTRIES then (-ENOSPC, s)
  else
    let fileInfo : MyFsFileInfo :=
      { name := path.drop 1, permissions := mode, owner := 0, group := 0,
        size := 0, data := [],
        lastAccess := now, lastModification := now, lastStatusChange := now }
    (0, { s with files := insertFile s.files path fileInfo })

/-- `MyInMemoryFS::fuseUnlink` (myinmemoryfs.cpp:126): `-ENOENT` when the
file is absent, otherwise the buffer is freed and the entry erased; since
the find succeeded, `files.erase(path) == 1` and the returned status is 0. -/
def fuseUnlink (s : FsState) (path : String) : Int × FsState :=
  match findFile s.files path with
  | none => (-ENOENT, s)
  | some _ => (0, { s with files := eraseFile s.files path })

/-- `MyInMemoryFS::fuseRename` (myinmemoryfs.cpp:155): an existing entry at
`newpath` is erased first (silent replace); then `files.at(path)` is read —
when `path` is absent at that point this throws an uncaught
`std::out_of_range`, modelled as `none`; otherwise the record's `name`
field is overwritten with `newpath + 1`, the record is stored under
`newpath` and the old key is erased, returning 0. -/
def fuseRename (s : FsState) (path newpath : String) : Option (Int × FsState) :=
  let files1 := if (findFile s.files newpath).isSome then eraseFile s.files newpath else s.files
  match findFile files1 path with
  | none => none
  | some fi =>
      let fileInfo := { fi with name := newpath.drop 1 }
      some (0, { s with files := eraseFile (insertFile files1 newpath fileInfo) path })

/-- Result record of `fuseGetattr`: the fields of `struct stat` the source
assigns. Fields the source leaves untouched on a branch stay at the zero
values FUSE pre-initializes the struct to. -/
structure FuseStat where
  st_uid : Nat
  st_gid : Nat
  st_atime : Nat
  st_mtime : Nat
  st_mode : Nat
  st_nlink : Nat
  st_size : Nat
deriving Repr, DecidableEq

/-- `MyInMemoryFS::fuseGetattr` (myinmemoryfs.cpp:181): always reports the
caller's uid/gid (`getuid()`/`getgid()`) and the current time for
access/modification; the root path `/` is a directory `0755` with 2 links;
any other existing path is a regular file, mode `S_IFREG | 0644`, 1 link,
with the stored `size`; otherwise `-ENOENT`. -/
def fuseGetattr (s : FsState) (path : String) (uid gid now : Nat) : Int × FuseStat :=
  let base : FuseStat :=
    { st_uid := uid, st_gid := gid, st_atime := now, st_mtime := now,
      st_mode := 0, st_nlink := 0, st_size := 0 }
  if path = "/" then
    (0, { base with st_mode := S_IFDIR ||| 0o755, st_nlink := 2 })
  else
    match findFile s.files path with
    | some fi => (0, { base with st_mode := S_IFREG ||| 0o644, st_nlink := 1, st_size := fi.size })
    | none => (-ENOENT, base)

/-- `MyInMemoryFS::fuseChmod` (myinmemoryfs.cpp:236): overwrites
`permissions` in place for an existing file, `-ENOENT` otherwise. -/
def fuseChmod (s : FsState) (path : String) (mode : Nat) : Int × FsState :=
  match findFile s.files path with
  | none => (-ENOENT, s)
  | some fi => (0, { s with files := insertFile s.files path { fi with permissions := mode } })

/-- `MyInMemoryFS::fuseChown` (myinmemoryfs.cpp:263): for an existing file
sets `owner` when `uid >= 0` and `group` when `gid >= 0` — both guards are
always true for the unsigned `uid_t`/`gid_t`, kept literally here. -/
def fuseChown (s : FsState) (path : String) (uid gid : Nat) : Int × FsState :=
  match findFile s.files path with
  | none => (-ENOENT, s)
  | some fi =>
      let fi1 := if uid ≥ 0 then { fi with owner := uid } else fi
      let fi2 := if gid ≥ 0 then { fi1 with group := gid } else fi1
      (0, { s with files := insertFile s.files path fi2 })

/-- `MyInMemoryFS::fuseOpen` (myinmemoryfs.cpp:299): `-ENOENT` when absent,
`-EMFILE` when `openFilesCount >= NUM_OPEN_FILES`, otherwise the counter is
incremented and 0 returned. -/
def fuseOpen (cfg : Config) (s : FsState) (path : String) : Int × FsState :=
  match findFile s.files path with
  | none => (-ENOENT, s)
  | some _ =>
      if s.openFilesCount ≥ cfg.NUM_OPEN_FILES then (-EMFILE, s)
      else (0, { s with openFilesCount := s.openFilesCount + 1 })

/-- `MyInMemoryFS::fuseRead` (myinmemoryfs.cpp:344): `-ENOENT` when absent;
0 bytes (success) when the stored size is 0; otherwise the copy length is
`min(size, files[path].size - offset)` with the subtraction performed in
`size_t` (wrapping — the `offset > size` case only logs a warning), and
`memmove` copies that many bytes starting at `data + offset`. The result
is the returned count together with the bytes that lie inside the buffer
from position `offset` on (the C `memmove` reads out of bounds whenever
the count exceeds them; the count is the faithful witness of that). The
C narrowing of the `size_t` count to the `int` return value is not
modelled; the claims concern the copy length. -/
def fuseRead (s : FsState) (path : String) (size offset : Nat) : Int × List Nat :=
  match findFile s.files path with
  | none => (-ENOENT, [])
  | some fi =>
      if fi.size = 0 then (0, [])
      else
        let bytesToCopy := min size (sizeTSub fi.size offset)
        ((bytesToCopy : Int), (fi.data.drop offset).take bytesToCopy)

/-- `MyInMemoryFS::fuseWrite` (myinmemoryfs.cpp:392): `-ENOENT` when
absent; when `files[path].size < offset + size` the buffer is reallocated
to `offset + size` bytes and `size` updated; then `memmove` copies the
input at `offset` and the byte count is returned. The C `size` argument is
the length of `buf` here. -/
def fuseWrite (s : FsState) (path : String) (buf : List Nat) (offset : Nat) : Int × FsState :=
  match findFile s.files path with
  | none => (-ENOENT, s)
  | some fi =>
      let fi1 :=
        if fi.size < offset + buf.length then
          { fi with data := resizeBuf fi.data (offset + buf.length),
                    size := offset + buf.length }
        else fi
      let fi2 := { fi1 with data := writeBytes fi1.data offset buf }
      ((buf.length : Int), { s with files := insertFile s.files path fi2 })

/-- `MyInMemoryFS::fuseRelease` (myinmemoryfs.cpp:421): `-ENOENT` when the
file is absent; `-ENOENT` again (the source reuses the same errno) when
`openFilesCount == 0`; otherwise the counter is decremented. -/
def fuseRelease (s : FsState) (path : String) : Int × FsState :=
  match findFile s.files path with
  | none => (-ENOENT, s)
  | some _ =>
      if s.openFilesCount = 0 then (-ENOENT, s)
      else (0, { s with openFilesCount := s.openFilesCount - 1 })

/-- `MyInMemoryFS::fuseTruncate` (myinmemoryfs.cpp:454): `-ENOENT` when
absent, otherwise the buffer is reallocated to `newSize` bytes and `size`
set to `newSize`. (The overload taking a `fuse_file_info` at line 485 has
the identical body.) -/
def fuseTruncate (s : FsState) (path : String) (newSize : Nat) : Int × FsState :=
  match findFile s.files path with
  | none => (-ENOENT, s)
  | some fi =>
      let fi1 := { fi with data := resizeBuf fi.data newSize, size := newSize }
      (0, { s with files := insertFile s.files path fi1 })

/-- One call into the File Store, with every argument the call needs. -/
inductive FsOp where
  | mknod (path : String) (mode : Nat) (now : Nat)
  | unlink (path : String)
  | rename (path newpath : String)
  | getattr (path : String) (uid gid now : Nat)
  | chmod (path : String) (mode : Nat)
  | chown (path : String) (uid gid : Nat)
  | openf (path : String)
  | readf (path : String) (size offset : Nat)
  | writef (path : String) (buf : List Nat) (offset : Nat)
  | release (path : String)
  | truncate (path : String) (newSize : Nat)
deriving Repr, DecidableEq

/-- Dispatch of one operation: `some (status, state after)` for a normal
return, `none` for the abnormal termination of `fuseRename` on an absent
source. `fuseGetattr` and `fuseRead` never change the state. -/
def fsStep (cfg : Config) (s : FsState) : FsOp → Option (Int × FsState)
  | .mknod p m now => some (fuseMknod cfg s p m now)
  | .unlink p => some (fuseUnlink s p)
  | .rename p q => fuseRename s p q
  | .getattr p u g now => some ((fuseGetattr s p u g now).1, s)
  | .chmod p m => some (fuseChmod s p m)
  | .chown p u g => some (fuseChown s p u g)
  | .openf p => some (fuseOpen cfg s p)
  | .readf p sz off => some ((fuseRead s p sz off).1, s)
  | .writef p buf off => some (fuseWrite s p buf off)
  | .release p => some (fuseRelease s p)
  | .truncate p n => some (fuseTruncate s p n)

/-- State after mounting: empty map (constructor) and `openFilesCount = 0`
(`fuseInit`). -/
def initState : FsState :=
  { files := [], openFilesCount := 0 }

/-- States reachable from the freshly mounted filesystem by normally
returning operations. -/
inductive Reachable (cfg : Config) : FsState → Prop where
  | init : Reachable cfg initState
  | step {s : FsState} {op : FsOp} {r : Int} {s2 : FsState} :
      Reachable cfg s → fsStep cfg s op = some (r, s2) → Reachable cfg s2

/-- Store invariants of §3 of the specification that the reachability
arguments need: no duplicate names, capacity bound, open-counter bound. -/
def StoreInv (cfg : Config) (s : FsState) : Prop :=
  (filesKeys s.files).Nodup ∧
  s.files.length ≤ cfg.NUM_DIR_ENTRIES ∧
  s.openFilesCount ≤ cfg.NUM_OPEN_FILES


/-! Concrete configurations and states used to instantiate the theorems. -/

/-- Sample configuration: names up to 255 bytes, capacity 1 entry, at most
1 concurrently open file. -/
def cfgW : Config :=
  { NAME_LENGTH := 255, NUM_DIR_ENTRIES := 1, NUM_OPEN_FILES := 1 }

/-- Sample configuration with room for several files. -/
def cfgDemo : Config :=
  { NAME_LENGTH := 255, NUM_DIR_ENTRIES := 64, NUM_OPEN_FILES := 64 }

/-- Record of a freshly created empty file `/a` (mode 0644). -/
def fiW : MyFsFileInfo :=
  { name := "a", permissions := 420, owner := 0, group := 0, size := 0, data := [],
    lastAccess := 0, lastModification := 0, lastStatusChange := 0 }

/-- Store holding the single empty file `/a`, no file open. -/
def stW1 : FsState :=
  { files := [("/a", fiW)], openFilesCount := 0 }

/-- Store holding the single empty file `/a`, one file open. -/
def stW2 : FsState :=
  { files := [("/a", fiW)], openFilesCount := 1 }

/-- Record of a one-byte file `/a` (content `[65]`). -/
def fiC1 : MyFsFileInfo :=
  { name := "a", permissions := 420, owner := 0, group := 0, size := 1, data := [65],
    lastAccess := 0, lastModification := 0, lastStatusChange := 0 }

/-- Store holding the single one-byte file `/a`. -/
def stC1 : FsState :=
  { files := [("/a", fiC1)], openFilesCount := 0 }

/-- Record of a four-byte file `/a` (content `[1, 2, 3, 4]`). -/
def fiC10 : MyFsFileInfo :=
  { name := "a", permissions := 420, owner := 0, group := 0, size := 4, data := [1, 2, 3, 4],
    lastAccess := 0, lastModification := 0, lastStatusChange := 0 }

/-- Store holding the single four-byte file `/a`. -/
def stC10 : FsState :=
  { files := [("/a", fiC10)], openFilesCount := 0 }

/-! Lemmas about the association-list file map. -/

theorem findFile_insert_self (fs : List (String × MyFsFileInfo)) (p : String) (v : MyFsFileInfo) :
    findFile (insertFile fs p v) p = some v := by
  induction fs with
  | nil => simp [insertFile, findFile]
  | cons e rest ih =>
      obtain ⟨q, fi⟩ := e
      by_cases h : q = p <;> simp [insertFile, findFile, h, ih]

theorem findFile_insert_ne (fs : List (String × MyFsFileInfo)) (p q : String) (v : MyFsFileInfo)
    (h : q ≠ p) : findFile (insertFile fs p v) q = findFile fs q := by
  have hpq : ¬ p = q := fun h2 => h h2.symm
  induction fs with
  | nil => simp [insertFile, findFile, hpq]
  | cons e rest ih =>
      obtain ⟨k, fi⟩ := e
      by_cases hk : k = p
      · subst hk
        have hkq : ¬ k = q := hpq
        simp [insertFile, findFile, hkq]
      · by_cases hq : k = q <;> simp [insertFile, findFile, hk, hq, h, ih]

theorem findFile_erase_ne (fs : List (String × MyFsFileInfo)) (p q : String)
    (h : q ≠ p) : findFile (eraseFile fs p) q = findFile fs q := by
  have hpq : ¬ p = q := fun h2 => h h2.symm
  induction fs with
  | nil => simp [eraseFile]
  | cons e rest ih =>
      obtain ⟨k, fi⟩ := e
      by_cases hk : k = p
      · subst hk
        simp [eraseFile, findFile, hpq]
      · by_cases hq : k = q <;> simp [eraseFile, findFile, hk, hq, h, ih]

theorem findFile_eq_none_of_not_mem (fs : List (String × MyFsFileInfo)) (p : String)
    (h : p ∉ filesKeys fs) : findFile fs p = none := by
  induction fs with
  | nil => simp [findFile]
  | cons e rest ih =>
      obtain ⟨k, fi⟩ := e
      simp [filesKeys] at h
      have hk : ¬ k = p := fun h2 => h.1 h2.symm
      simp [findFile, hk]
      exact ih h.2

theorem mem_keys_of_findFile_isSome (fs : List (String × MyFsFileInfo)) (p : String)
    (h : (findFile fs p).isSome) : p ∈ filesKeys fs := by
  induction fs with
  | nil => simp [findFile] at h
  | cons e rest ih =>
      obtain ⟨k, fi⟩ := e
      by_cases hk : k = p
      · simp [filesKeys, hk]
      · simp [findFile, hk] at h
        simp [filesKeys]
        exact Or.inr (ih h)

theorem length_insertFile_none (fs : List (String × MyFsFileInfo)) (p : String) (v : MyFsFileInfo)
    (h : findFile fs p = none) : (insertFile fs p v).length = fs.length + 1 := by
  induction fs with
  | nil => simp [insertFile]
  | cons e rest ih =>
      obtain ⟨k, fi⟩ := e
      by_cases hk : k = p
      · simp [findFile, hk] at h
      · simp [findFile, hk] at h
        simp [insertFile, hk, ih h]

theorem length_insertFile_some (fs : List (String × MyFsFileInfo)) (p : String) (v : MyFsFileInfo)
    (h : (findFile fs p).isSome) : (insertFile fs p v).length = fs.length := by
  induction fs with
  | nil => simp [findFile] at h
  | cons e rest ih =>
      obtain ⟨k, fi⟩ := e
      by_cases hk : k = p
      · simp [insertFile, hk]
      · simp [findFile, hk] at h
        simp [insertFile, hk, ih h]

theorem length_eraseFile_le (fs : List (String × MyFsFileInfo)) (p : String) :
    (eraseFile fs p).length ≤ fs.length := by
  induction fs with
  | nil => simp [eraseFile]
  | cons e rest ih =>
      obtain ⟨k, fi⟩ := e
      by_cases hk : k = p
      · simp [eraseFile, hk]
      · simp [eraseFile, hk]
        omega

theorem length_eraseFile_some (fs : List (String × MyFsFileInfo)) (p : String)
    (h : (findFile fs p).isSome) : (eraseFile fs p).length + 1 = fs.length := by
  induction fs with
  | nil => simp [findFile] at h
  | cons e rest ih =>
      obtain ⟨k, fi⟩ := e
      by_cases hk : k = p
      · simp [eraseFile, hk]
      · simp [findFile, hk] at h
        simp [eraseFile, hk]
        have h2 := ih h
        omega

theorem keys_eraseFile_sublist (fs : List (String × MyFsFileInfo)) (p : String) :
    List.Sublist (filesKeys (eraseFile fs p)) (filesKeys fs) := by
  induction fs with
  | nil => simp [eraseFile, filesKeys]
  | cons e rest ih =>
      obtain ⟨k, fi⟩ := e
      by_cases hk : k = p
      · simp [eraseFile, hk, filesKeys]
      · simp [eraseFile, hk, filesKeys]
        exact ih

theorem mem_keys_insertFile (fs : List (String × MyFsFileInfo)) (p x : String) (v : MyFsFileInfo)
    (h : x ∈ filesKeys (insertFile fs p v)) : x = p ∨ x ∈ filesKeys fs := by
  induction fs with
  | nil => simpa [insertFile, filesKeys] using h
  | cons e rest ih =>
      obtain ⟨k, fi⟩ := e
      by_cases hk : k = p
      · subst hk
        simp [insertFile, filesKeys] at h
        rcases h with h | h
        · exact Or.inl h
        · exact Or.inr (by simp [filesKeys, h])
      · simp [insertFile, hk, filesKeys] at h
        rcases h with h | h
        · exact Or.inr (by simp [filesKeys, h])
        · rcases ih h with h2 | h2
          · exact Or.inl h2
          · exact Or.inr (by simp [filesKeys]; exact Or.inr h2)

theorem nodup_keys_insertFile (fs : List (String × MyFsFileInfo)) (p : String) (v : MyFsFileInfo)
    (h : (filesKeys fs).Nodup) : (filesKeys (insertFile fs p v)).Nodup := by
  induction fs with
  | nil => simp [insertFile, filesKeys]
  | cons e rest ih =>
      obtain ⟨k, fi⟩ := e
      simp [filesKeys] at h
      by_cases hk : k = p
      · simp [insertFile, hk, filesKeys]
        exact ⟨by simpa [hk] using h.1, h.2⟩
      · simp [insertFile, hk, filesKeys]
        refine ⟨?_, ih h.2⟩
        intro hmem
        rcases mem_keys_insertFile rest p k v hmem with h2 | h2
        · exact hk h2
        · exact h.1 h2

theorem nodup_keys_eraseFile (fs : List (String × MyFsFileInfo)) (p : String)
    (h : (filesKeys fs).Nodup) : (filesKeys (eraseFile fs p)).Nodup :=
  (keys_eraseFile_sublist fs p).nodup h

theorem findFile_erase_self (fs : List (String × MyFsFileInfo)) (p : String)
    (h : (filesKeys fs).Nodup) : findFile (eraseFile fs p) p = none := by
  induction fs with
  | nil => simp [eraseFile, findFile]
  | cons e rest ih =>
      obtain ⟨k, fi⟩ := e
      simp [filesKeys] at h
      by_cases hk : k = p
      · subst hk
        simp [eraseFile]
        exact findFile_eq_none_of_not_mem rest k h.1
      · simp [eraseFile, findFile, hk]
        exact ih h.2

/-! Lemmas about the byte-buffer operations. -/

theorem sizeTSub_of_le (a b : Nat) (hle : b ≤ a) (hlt : a - b < SIZE_T_MOD) :
    sizeTSub a b = a - b := by
  unfold sizeTSub
  have h1 : (a : Int) - (b : Int) = ((a - b : Nat) : Int) := by
    omega
  rw [h1, Int.emod_eq_of_lt (by positivity) (by exact_mod_cast hlt)]
  exact Int.toNat_natCast _

theorem resizeBuf_length (data : List Nat) (newLen : Nat) :
    (resizeBuf data newLen).length = newLen := by
  simp [resizeBuf]
  omega

theorem resizeBuf_getElem_old (data : List Nat) (newLen i : Nat) (h1 : i < newLen)
    (h2 : i < data.length) : (resizeBuf data newLen)[i]? = data[i]? := by
  simp [resizeBuf, List.getElem?_append, List.length_take, List.getElem?_take, h1, h2]

theorem writeBytes_length (data : List Nat) (offset : Nat) (buf : List Nat)
    (h : offset + buf.length ≤ data.length) :
    (writeBytes data offset buf).length = data.length := by
  simp [writeBytes]
  omega

theorem writeBytes_getElem_lt (data : List Nat) (offset : Nat) (buf : List Nat) (i : Nat)
    (hi : i < offset) (hoff : offset ≤ data.length) :
    (writeBytes data offset buf)[i]? = data[i]? := by
  have hlen : (data.take offset).length = offset := by
    simp
    omega
  simp [writeBytes, List.getElem?_append, hlen, hi, List.getElem?_take]

theorem writeBytes_getElem_mid (data : List Nat) (offset : Nat) (buf : List Nat) (i : Nat)
    (hi : i < buf.length) (hoff : offset ≤ data.length) :
    (writeBytes data offset buf)[offset + i]? = buf[i]? := by
  have hlen : (data.take offset).length = offset := by
    simp
    omega
  rw [writeBytes, List.append_assoc, List.getElem?_append_right (by omega)]
  rw [hlen]
  have h2 : offset + i - offset = i := by omega
  rw [h2]
  simp [List.getElem?_append, hi]

theorem writeBytes_getElem_ge (data : List Nat) (offset : Nat) (buf : List Nat) (i : Nat)
    (hi : offset + buf.length ≤ i) (hle : offset + buf.length ≤ data.length) :
    (writeBytes data offset buf)[i]? = data[i]? := by
  have hlen : (data.take offset).length = offset := by
    simp
    omega
  have hlen2 : (data.take offset ++ buf).length = offset + buf.length := by
    simp
    omega
  rw [writeBytes, List.getElem?_append_right (by rw [hlen2]; omega), hlen2,
    List.getElem?_drop]
  congr 1
  omega

theorem writeBytes_readback (data : List Nat) (offset : Nat) (buf : List Nat)
    (h : offset + buf.length ≤ data.length) :
    ((writeBytes data offset buf).drop offset).take buf.length = buf := by
  have hlen : (data.take offset).length = offset := by
    simp
    omega
  rw [writeBytes, List.append_assoc, List.drop_left' hlen]
  rw [List.take_left' rfl]

/-! Preservation of the store invariants by every operation. -/

theorem storeInv_files_insert_some (cfg : Config) (s : FsState) (p : String) (v : MyFsFileInfo)
    (hsome : (findFile s.files p).isSome) (h : StoreInv cfg s) :
    StoreInv cfg { s with files := insertFile s.files p v } := by
  obtain ⟨hnd, hlen, hcnt⟩ := h
  refine ⟨nodup_keys_insertFile _ _ _ hnd, ?_, hcnt⟩
  rw [length_insertFile_some _ _ _ hsome]
  exact hlen

theorem storeInv_fuseMknod (cfg : Config) (s : FsState) (p : String) (m now : Nat)
    (h : StoreInv cfg s) : StoreInv cfg (fuseMknod cfg s p m now).2 := by
  obtain ⟨hnd, hlen, hcnt⟩ := h
  unfold fuseMknod
  split_ifs with h1 h2 h3
  · exact ⟨hnd, hlen, hcnt⟩
  · exact ⟨hnd, hlen, hcnt⟩
  · exact ⟨hnd, hlen, hcnt⟩
  · refine ⟨nodup_keys_insertFile _ _ _ hnd, ?_, hcnt⟩
    have hnone : findFile s.files p = none := Option.not_isSome_iff_eq_none.mp h2
    rw [length_insertFile_none s.files p _ hnone]
    omega

theorem storeInv_fuseUnlink (cfg : Config) (s : FsState) (p : String)
    (h : StoreInv cfg s) : StoreInv cfg (fuseUnlink s p).2 := by
  obtain ⟨hnd, hlen, hcnt⟩ := h
  unfold fuseUnlink
  cases hf : findFile s.files p with
  | none => exact ⟨hnd, hlen, hcnt⟩
  | some fi =>
      refine ⟨nodup_keys_eraseFile _ _ hnd, ?_, hcnt⟩
      exact le_trans (length_eraseFile_le _ _) hlen

theorem storeInv_fuseRename (cfg : Config) (s : FsState) (p q : String) (r : Int) (s2 : FsState)
    (h : StoreInv cfg s) (hr : fuseRename s p q = some (r, s2)) : StoreInv cfg s2 := by
  obtain ⟨hnd, hlen, hcnt⟩ := h
  unfold fuseRename at hr
  by_cases hq : (findFile s.files q).isSome
  · simp only [hq, if_true] at hr
    cases hf : findFile (eraseFile s.files q) p with
    | none => rw [hf] at hr; exact absurd hr (by simp)
    | some fi =>
        rw [hf] at hr
        simp only [Option.some.injEq, Prod.mk.injEq] at hr
        obtain ⟨hr1, hs2⟩ := hr
        subst hs2
        have hnd1 : (filesKeys (eraseFile s.files q)).Nodup := nodup_keys_eraseFile _ _ hnd
        have hqe : findFile (eraseFile s.files q) q = none := findFile_erase_self _ _ hnd
        have hlen1 : (eraseFile s.files q).length + 1 = s.files.length :=
          length_eraseFile_some _ _ hq
        have hlen2 : (insertFile (eraseFile s.files q) q { fi with name := q.drop 1 }).length
            = (eraseFile s.files q).length + 1 := length_insertFile_none _ _ _ hqe
        refine ⟨nodup_keys_eraseFile _ _ (nodup_keys_insertFile _ _ _ hnd1), ?_, hcnt⟩
        have h3 := length_eraseFile_le (insertFile (eraseFile s.files q) q
          { fi with name := q.drop 1 }) p
        rw [hlen2] at h3
        dsimp only
        omega
  · have hq0 : findFile s.files q = none := Option.not_isSome_iff_eq_none.mp hq
    simp only [hq0, Option.isSome_none, Bool.false_eq_true, if_false] at hr
    cases hf : findFile s.files p with
    | none => rw [hf] at hr; exact absurd hr (by simp)
    | some fi =>
        rw [hf] at hr
        simp only [Option.some.injEq, Prod.mk.injEq] at hr
        obtain ⟨hr1, hs2⟩ := hr
        subst hs2
        have hpq : p ≠ q := by
          intro he
          rw [he, hq0] at hf
          exact absurd hf (by simp)
        have hlen1 : (insertFile s.files q { fi with name := q.drop 1 }).length
            = s.files.length + 1 := length_insertFile_none _ _ _ hq0
        have hfp : (findFile (insertFile s.files q { fi with name := q.drop 1 }) p).isSome := by
          rw [findFile_insert_ne _ _ _ _ hpq, hf]
          rfl
        have hlen3 := length_eraseFile_some
          (insertFile s.files q { fi with name := q.drop 1 }) p hfp
        refine ⟨nodup_keys_eraseFile _ _ (nodup_keys_insertFile _ _ _ hnd), ?_, hcnt⟩
        dsimp only
        omega

theorem storeInv_fuseChmod (cfg : Config) (s : FsState) (p : String) (m : Nat)
    (h : StoreInv cfg s) : StoreInv cfg (fuseChmod s p m).2 := by
  unfold fuseChmod
  cases hf : findFile s.files p with
  | none => exact h
  | some fi => exact storeInv_files_insert_some cfg s p _ (by rw [hf]; rfl) h

theorem storeInv_fuseChown (cfg : Config) (s : FsState) (p : String) (uid gid : Nat)
    (h : StoreInv cfg s) : StoreInv cfg (fuseChown s p uid gid).2 := by
  unfold fuseChown
  cases hf : findFile s.files p with
  | none => exact h
  | some fi => exact storeInv_files_insert_some cfg s p _ (by rw [hf]; rfl) h

theorem storeInv_fuseOpen (cfg : Config) (s : FsState) (p : String)
    (h : StoreInv cfg s) : StoreInv cfg (fuseOpen cfg s p).2 := by
  obtain ⟨hnd, hlen, hcnt⟩ := h
  unfold fuseOpen
  cases hf : findFile s.files p with
  | none => exact ⟨hnd, hlen, hcnt⟩
  | some fi =>
      by_cases hc : s.openFilesCount ≥ cfg.NUM_OPEN_FILES
      · simp only [hc, if_true]
        exact ⟨hnd, hlen, hcnt⟩
      · simp only [hc, if_false]
        exact ⟨hnd, hlen, by simp; omega⟩

theorem storeInv_fuseWrite (cfg : Config) (s : FsState) (p : String) (buf : List Nat) (off : Nat)
    (h : StoreInv cfg s) : StoreInv cfg (fuseWrite s p buf off).2 := by
  unfold fuseWrite
  cases hf : findFile s.files p with
  | none => exact h
  | some fi => exact storeInv_files_insert_some cfg s p _ (by rw [hf]; rfl) h

theorem storeInv_fuseRelease (cfg : Config) (s : FsState) (p : String)
    (h : StoreInv cfg s) : StoreInv cfg (fuseRelease s p).2 := by
  obtain ⟨hnd, hlen, hcnt⟩ := h
  unfold fuseRelease
  cases hf : findFile s.files p with
  | none => exact ⟨hnd, hlen, hcnt⟩
  | some fi =>
      by_cases hc : s.openFilesCount = 0
      · simp only [hc, if_pos rfl]
        exact ⟨hnd, hlen, hcnt⟩
      · simp only [hc, if_false]
        exact ⟨hnd, hlen, by simp; omega⟩

theorem storeInv_fuseTruncate (cfg : Config) (s : FsState) (p : String) (n : Nat)
    (h : StoreInv cfg s) : StoreInv cfg (fuseTruncate s p n).2 := by
  unfold fuseTruncate
  cases hf : findFile s.files p with
  | none => exact h
  | some fi => exact storeInv_files_insert_some cfg s p _ (by rw [hf]; rfl) h

theorem storeInv_fsStep (cfg : Config) (s : FsState) (op : FsOp) (r : Int) (s2 : FsState)
    (h : StoreInv cfg s) (hstep : fsStep cfg s op = some (r, s2)) : StoreInv cfg s2 := by
  cases op with
  | mknod p m now =>
      simp only [fsStep, Option.some.injEq, Prod.ext_iff] at hstep
      exact hstep.2 ▸ storeInv_fuseMknod cfg s p m now h
  | unlink p =>
      simp only [fsStep, Option.some.injEq, Prod.ext_iff] at hstep
      exact hstep.2 ▸ storeInv_fuseUnlink cfg s p h
  | rename p q =>
      exact storeInv_fuseRename cfg s p q r s2 h hstep
  | getattr p u g now =>
      simp only [fsStep, Option.some.injEq, Prod.ext_iff] at hstep
      exact hstep.2 ▸ h
  | chmod p m =>
      simp only [fsStep, Option.some.injEq, Prod.ext_iff] at hstep
      exact hstep.2 ▸ storeInv_fuseChmod cfg s p m h
  | chown p u g =>
      simp only [fsStep, Option.some.injEq, Prod.ext_iff] at hstep
      exact hstep.2 ▸ storeInv_fuseChown cfg s p u g h
  | openf p =>
      simp only [fsStep, Option.some.injEq, Prod.ext_iff] at hstep
      exact hstep.2 ▸ storeInv_fuseOpen cfg s p h
  | readf p sz off =>
      simp only [fsStep, Option.some.injEq, Prod.ext_iff] at hstep
      exact hstep.2 ▸ h
  | writef p buf off =>
      simp only [fsStep, Option.some.injEq, Prod.ext_iff] at hstep
      exact hstep.2 ▸ storeInv_fuseWrite cfg s p buf off h
  | release p =>
      simp only [fsStep, Option.some.injEq, Prod.ext_iff] at hstep
      exact hstep.2 ▸ storeInv_fuseRelease cfg s p h
  | truncate p n =>
      simp only [fsStep, Option.some.injEq, Prod.ext_iff] at hstep
      exact hstep.2 ▸ storeInv_fuseTruncate cfg s p n h

theorem reachable_storeInv (cfg : Config) (s : FsState) (h : Reachable cfg s) :
    StoreInv cfg s := by
  induction h with
  | init => exact ⟨by simp [initState, filesKeys], by simp [initState], by simp [initState]⟩
  | step hreach hstep ih => exact storeInv_fsStep _ _ _ _ _ ih hstep

/-! Error results never mutate the state: one lemma per operation. -/

theorem fuseMknod_error_unchanged (cfg : Config) (s : FsState) (p : String) (m now : Nat)
    (h : (fuseMknod cfg s p m now).1 < 0) : (fuseMknod cfg s p m now).2 = s := by
  unfold fuseMknod at h ⊢
  split_ifs at h ⊢
  any_goals rfl
  dsimp only at h
  omega

theorem fuseUnlink_error_unchanged (s : FsState) (p : String)
    (h : (fuseUnlink s p).1 < 0) : (fuseUnlink s p).2 = s := by
  unfold fuseUnlink at h ⊢
  cases hf : findFile s.files p with
  | none => rfl
  | some fi =>
      rw [hf] at h
      dsimp only at h
      omega

theorem fuseRename_returns_zero (s : FsState) (p q : String) (r : Int) (s2 : FsState)
    (h : fuseRename s p q = some (r, s2)) : r = 0 := by
  unfold fuseRename at h
  dsimp only at h
  cases hf : findFile (if (findFile s.files q).isSome then eraseFile s.files q else s.files) p with
  | none => rw [hf] at h; exact absurd h (by simp)
  | some fi =>
      rw [hf] at h
      simp only [Option.some.injEq, Prod.mk.injEq] at h
      omega

theorem fuseChmod_error_unchanged (s : FsState) (p : String) (m : Nat)
    (h : (fuseChmod s p m).1 < 0) : (fuseChmod s p m).2 = s := by
  unfold fuseChmod at h ⊢
  cases hf : findFile s.files p with
  | none => rfl
  | some fi =>
      rw [hf] at h
      dsimp only at h
      omega

theorem fuseChown_error_unchanged (s : FsState) (p : String) (uid gid : Nat)
    (h : (fuseChown s p uid gid).1 < 0) : (fuseChown s p uid gid).2 = s := by
  unfold fuseChown at h ⊢
  cases hf : findFile s.files p with
  | none => rfl
  | some fi =>
      rw [hf] at h
      dsimp only at h
      omega

theorem fuseOpen_error_unchanged (cfg : Config) (s : FsState) (p : String)
    (h : (fuseOpen cfg s p).1 < 0) : (fuseOpen cfg s p).2 = s := by
  unfold fuseOpen at h ⊢
  cases hf : findFile s.files p with
  | none => rfl
  | some fi =>
      rw [hf] at h
      dsimp only at h ⊢
      split_ifs at h ⊢ with hc
      · rfl
      · dsimp only at h
        omega

theorem fuseWrite_error_unchanged (s : FsState) (p : String) (buf : List Nat) (off : Nat)
    (h : (fuseWrite s p buf off).1 < 0) : (fuseWrite s p buf off).2 = s := by
  unfold fuseWrite at h ⊢
  cases hf : findFile s.files p with
  | none => rfl
  | some fi =>
      rw [hf] at h
      dsimp only at h
      omega

theorem fuseRelease_error_unchanged (s : FsState) (p : String)
    (h : (fuseRelease s p).1 < 0) : (fuseRelease s p).2 = s := by
  unfold fuseRelease at h ⊢
  cases hf : findFile s.files p with
  | none => rfl
  | some fi =>
      rw [hf] at h
      dsimp only at h ⊢
      split_ifs at h ⊢ with hc
      · rfl
      · dsimp only at h
        omega

theorem fuseTruncate_error_unchanged (s : FsState) (p : String) (n : Nat)
    (h : (fuseTruncate s p n).1 < 0) : (fuseTruncate s p n).2 = s := by
  unfold fuseTruncate at h ⊢
  cases hf : findFile s.files p with
  | none => rfl
  | some fi =>
      rw [hf] at h
      dsimp only at h
      omega

/-! Claim theorems. -/

/-- C3: in every reachable state the store holds at most `NUM_DIR_ENTRIES`
entries, and a create of a fresh, well-formed name invoked when the store
already holds `NUM_DIR_ENTRIES` entries fails with `-ENOSPC` and leaves the
state unchanged. (A create at a full store whose name is over-long or
already present fails even earlier, with `-ENAMETOOLONG` resp. `-EEXIST`,
per the check order of `fuseMknod`; no operation, rename over an existing
destination included, pushes the entry count past the limit — that is the
first conjunct, proved by induction over all reachable states.) -/
theorem C3_capacity_invariant (cfg : Config) (s : FsState) (h : Reachable cfg s) :
    s.files.length ≤ cfg.NUM_DIR_ENTRIES ∧
    (∀ p m now, ¬ (p.drop 1).length > cfg.NAME_LENGTH → findFile s.files p = none →
      s.files.length = cfg.NUM_DIR_ENTRIES →
      fuseMknod cfg s p m now = (-ENOSPC, s)) := by
  have hinv := reachable_storeInv cfg s h
  refine ⟨hinv.2.1, ?_⟩
  intro p m now hlen hnone hfull
  unfold fuseMknod
  rw [if_neg hlen, hnone]
  rw [if_neg (by simp)]
  rw [if_pos (by omega)]

/-- C3 witness: with capacity 1, the store `{/a}` (reached by one create
from the empty store) is at the limit and a create of `/b` fails with
`-ENOSPC`, leaving the state unchanged. -/
theorem C3_capacity_invariant_witness :
    stW1.files.length ≤ cfgW.NUM_DIR_ENTRIES ∧
    fuseMknod cfgW stW1 "/b" 420 0 = (-ENOSPC, stW1) := by
  have hreach : Reachable cfgW stW1 :=
    Reachable.step Reachable.init
      (show fsStep cfgW initState (FsOp.mknod "/a" 420 0) = some (0, stW1) by rfl)
  have h := C3_capacity_invariant cfgW stW1 hreach
  exact ⟨h.1, h.2 "/b" 420 0 (by decide) (by rfl) (by rfl)⟩

/-- C4: in every reachable state the open-file counter lies between 0 and
`NUM_OPEN_FILES` (the lower bound holds by the counter's unsigned type);
for an existing file, open at the limit fails with `-EMFILE` leaving the
state unchanged, open below the limit increments the counter, close at
counter 0 fails leaving the state unchanged, and close at a positive
counter decrements it. -/
theorem C4_open_counter (cfg : Config) (s : FsState) (h : Reachable cfg s) :
    s.openFilesCount ≤ cfg.NUM_OPEN_FILES ∧
    (∀ p, (findFile s.files p).isSome →
      (s.openFilesCount ≥ cfg.NUM_OPEN_FILES → fuseOpen cfg s p = (-EMFILE, s)) ∧
      (s.openFilesCount < cfg.NUM_OPEN_FILES →
        fuseOpen cfg s p = (0, { s with openFilesCount := s.openFilesCount + 1 })) ∧
      (s.openFilesCount = 0 → fuseRelease s p = (-ENOENT, s)) ∧
      (0 < s.openFilesCount →
        fuseRelease s p = (0, { s with openFilesCount := s.openFilesCount - 1 }))) := by
  have hinv := reachable_storeInv cfg s h
  refine ⟨hinv.2.2, ?_⟩
  intro p hp
  cases hf : findFile s.files p with
  | none => rw [hf] at hp; exact absurd hp (by simp)
  | some fi =>
      refine ⟨?_, ?_, ?_, ?_⟩
      · intro hc
        unfold fuseOpen
        rw [hf]
        dsimp only
        rw [if_pos hc]
      · intro hc
        unfold fuseOpen
        rw [hf]
        dsimp only
        rw [if_neg (by omega)]
      · intro hc
        unfold fuseRelease
        rw [hf]
        dsimp only
        rw [if_pos hc]
      · intro hc
        unfold fuseRelease
        rw [hf]
        dsimp only
        rw [if_neg (by omega)]

/-- C4 witness: with an open-file limit of 1, the reachable states `{/a}`
with counter 0 (`stW1`, after one create) and counter 1 (`stW2`, after one
open) exhibit all four behaviours: open at the limit fails with `-EMFILE`,
open below the limit increments, close at 0 fails, close at 1 decrements. -/
theorem C4_open_counter_witness :
    stW2.openFilesCount ≤ cfgW.NUM_OPEN_FILES ∧
    fuseOpen cfgW stW2 "/a" = (-EMFILE, stW2) ∧
    fuseOpen cfgW stW1 "/a" = (0, stW2) ∧
    fuseRelease stW1 "/a" = (-ENOENT, stW1) ∧
    fuseRelease stW2 "/a" = (0, stW1) := by
  have hreach1 : Reachable cfgW stW1 :=
    Reachable.step Reachable.init
      (show fsStep cfgW initState (FsOp.mknod "/a" 420 0) = some (0, stW1) by rfl)
  have hreach2 : Reachable cfgW stW2 :=
    Reachable.step hreach1
      (show fsStep cfgW stW1 (FsOp.openf "/a") = some (0, stW2) by rfl)
  have h1 := C4_open_counter cfgW stW1 hreach1
  have h2 := C4_open_counter cfgW stW2 hreach2
  refine ⟨h2.1, (h2.2 "/a" (by rfl)).1 (by decide), ?_, ?_, ?_⟩
  · exact (h1.2 "/a" (by rfl)).2.1 (by decide)
  · exact (h1.2 "/a" (by rfl)).2.2.1 (by rfl)
  · exact (h2.2 "/a" (by rfl)).2.2.2 (by decide)

/-- C9: whenever an operation of the File Store returns an error (a
negative status), the state after the call — file map, every record, and
the open-file counter — equals the state before the call. (`fuseRename`
never returns a negative status: on a missing source it does not return at
all, which `fsStep` models as `none`, so it is covered vacuously by its
zero-only returns.) -/
theorem C9_no_mutation_on_error (cfg : Config) (s : FsState) (op : FsOp) (r : Int) (s2 : FsState)
    (hstep : fsStep cfg s op = some (r, s2)) (herr : r < 0) : s2 = s := by
  cases op with
  | mknod p m now =>
      simp only [fsStep, Option.some.injEq, Prod.ext_iff] at hstep
      rw [← hstep.2]
      exact fuseMknod_error_unchanged cfg s p m now (by rw [hstep.1]; exact herr)
  | unlink p =>
      simp only [fsStep, Option.some.injEq, Prod.ext_iff] at hstep
      rw [← hstep.2]
      exact fuseUnlink_error_unchanged s p (by rw [hstep.1]; exact herr)
  | rename p q =>
      have h0 := fuseRename_returns_zero s p q r s2 hstep
      omega
  | getattr p u g now =>
      simp only [fsStep, Option.some.injEq, Prod.ext_iff] at hstep
      exact hstep.2.symm
  | chmod p m =>
      simp only [fsStep, Option.some.injEq, Prod.ext_iff] at hstep
      rw [← hstep.2]
      exact fuseChmod_error_unchanged s p m (by rw [hstep.1]; exact herr)
  | chown p u g =>
      simp only [fsStep, Option.some.injEq, Prod.ext_iff] at hstep
      rw [← hstep.2]
      exact fuseChown_error_unchanged s p u g (by rw [hstep.1]; exact herr)
  | openf p =>
      simp only [fsStep, Option.some.injEq, Prod.ext_iff] at hstep
      rw [← hstep.2]
      exact fuseOpen_error_unchanged cfg s p (by rw [hstep.1]; exact herr)
  | readf p sz off =>
      simp only [fsStep, Option.some.injEq, Prod.ext_iff] at hstep
      exact hstep.2.symm
  | writef p buf off =>
      simp only [fsStep, Option.some.injEq, Prod.ext_iff] at hstep
      rw [← hstep.2]
      exact fuseWrite_error_unchanged s p buf off (by rw [hstep.1]; exact herr)
  | release p =>
      simp only [fsStep, Option.some.injEq, Prod.ext_iff] at hstep
      rw [← hstep.2]
      exact fuseRelease_error_unchanged s p (by rw [hstep.1]; exact herr)
  | truncate p n =>
      simp only [fsStep, Option.some.injEq, Prod.ext_iff] at hstep
      rw [← hstep.2]
      exact fuseTruncate_error_unchanged s p n (by rw [hstep.1]; exact herr)

/-- C9 witness: deleting the absent file `/a` from the empty store returns
`-ENOENT` and, by the theorem, leaves the state unchanged. -/
theorem C9_no_mutation_on_error_witness :
    fsStep cfgDemo initState (FsOp.unlink "/a") = some (-ENOENT, initState) ∧
    -ENOENT < (0 : Int) ∧ initState = initState := by
  refine ⟨by rfl, by decide, ?_⟩
  exact C9_no_mutation_on_error cfgDemo initState (FsOp.unlink "/a") (-ENOENT) initState
    (by rfl) (by decide)

/-- C2: for an existing file (with the store's buffer-length invariant and
`size_t`-representable sizes), a write of `buf` at `offset` returns
`buf.length` and an immediately following read of `buf.length` bytes at
`offset` returns exactly `buf`. The claim's guard `offset + n ≤ resulting
size` holds automatically: the resulting size is
`max (old size) (offset + n)`. -/
theorem C2_write_read_roundtrip (s : FsState) (path : String) (buf : List Nat) (offset : Nat)
    (fi : MyFsFileInfo) (hfind : findFile s.files path = some fi)
    (hdl : fi.data.length = fi.size)
    (hsz : fi.size < SIZE_T_MOD) (hob : offset + buf.length < SIZE_T_MOD) :
    (fuseWrite s path buf offset).1 = (buf.length : Int) ∧
    fuseRead (fuseWrite s path buf offset).2 path buf.length offset
      = ((buf.length : Int), buf) := by
  unfold fuseWrite
  rw [hfind]
  dsimp only
  by_cases hg : fi.size < offset + buf.length
  · rw [if_pos hg]
    refine ⟨rfl, ?_⟩
    unfold fuseRead
    dsimp only
    rw [findFile_insert_self]
    dsimp only
    rw [if_neg (by omega)]
    have hrl : (resizeBuf fi.data (offset + buf.length)).length = offset + buf.length :=
      resizeBuf_length _ _
    have hsub : sizeTSub (offset + buf.length) offset = buf.length := by
      rw [sizeTSub_of_le _ _ (by omega) (by omega)]
      omega
    rw [hsub, Nat.min_self]
    rw [writeBytes_readback _ _ _ (by omega)]
  · rw [if_neg hg]
    refine ⟨rfl, ?_⟩
    unfold fuseRead
    dsimp only
    rw [findFile_insert_self]
    dsimp only
    by_cases h0 : fi.size = 0
    · have hlen0 : buf.length = 0 := by omega
      have hbuf : buf = [] := List.eq_nil_of_length_eq_zero hlen0
      rw [if_pos h0, hbuf]
      rfl
    · rw [if_neg h0]
      have hsub : sizeTSub fi.size offset = fi.size - offset := by
        rw [sizeTSub_of_le _ _ (by omega) (by omega)]
      rw [hsub, Nat.min_eq_left (by omega)]
      rw [writeBytes_readback _ _ _ (by omega)]

/-- C2 witness: writing the two bytes `[104, 105]` at offset 0 into the
empty file `/a` returns 2, and reading 2 bytes at offset 0 yields exactly
`[104, 105]`. -/
theorem C2_write_read_roundtrip_witness :
    findFile stW1.files "/a" = some fiW ∧ fiW.data.length = fiW.size ∧
    fiW.size < SIZE_T_MOD ∧ 0 + [104, 105].length < SIZE_T_MOD ∧
    (fuseWrite stW1 "/a" [104, 105] 0).1 = 2 ∧
    fuseRead (fuseWrite stW1 "/a" [104, 105] 0).2 "/a" 2 0 = (2, [104, 105]) := by
  have h := C2_write_read_roundtrip stW1 "/a" [104, 105] 0 fiW (by rfl) (by rfl)
    (by decide) (by decide)
  exact ⟨by rfl, by rfl, by decide, by decide, h.1, h.2⟩

/-- C1 fails on the code (code defect flagged in the specification's §9):
for the one-byte file `/a` of `stC1`, `read(size 5, offset 3)` computes the
copy length `min(5, 1 - 3)` with the subtraction performed in `size_t`,
which wraps to `2 ^ 64 - 2`, so the call returns count 5 — strictly above
the clamped bound `max(storedSize - offset, 0) = 0` the claim demands — and
the `memmove` reads bytes 3..7 of a 1-byte buffer, outside the content
buffer. The zero-size early return does behave as claimed (last conjunct:
reading the empty file `/a` of `stW1` yields 0 bytes, a success). -/
theorem C1_read_out_of_bounds :
    findFile stC1.files "/a" = some fiC1 ∧ fiC1.size = 1 ∧
    (fuseRead stC1 "/a" 5 3).1 = 5 ∧
    ¬ ((fuseRead stC1 "/a" 5 3).1 ≤ ((fiC1.size - 3 : Nat) : Int)) ∧
    fuseRead stW1 "/a" 5 0 = (0, []) := by
  refine ⟨by rfl, by rfl, by decide, by decide, by rfl⟩

/-- C5 as stated is false on the code: creating `/a` with requested mode
`0755` (= 493) and then querying its attributes reports
`st_mode = S_IFREG ||| 0644`; the permission bits `0644` (= 420) differ
from the requested `0755`, because `fuseGetattr` hard-codes `0644` and
never consults the stored `permissions` field. -/
theorem C5_counterexample :
    (fuseGetattr (fuseMknod cfgDemo initState "/a" 493 0).2 "/a" 1000 1000 7).2.st_mode
      = S_IFREG ||| 420 ∧
    ((fuseGetattr (fuseMknod cfgDemo initState "/a" 493 0).2 "/a" 1000 1000 7).2.st_mode
      &&& 511) ≠ 493 := by
  exact ⟨by rfl, by decide⟩

/-- C5 amended: for every valid fresh name (with room in the store),
create followed by stat succeeds and reports size 0 and the fixed mode
`S_IFREG ||| 0644` — not the requested permissions, which are stored in
the record but ignored by `fuseGetattr`. -/
theorem C5_create_then_stat (cfg : Config) (s : FsState) (path : String)
    (mode now uid gid t : Nat)
    (hroot : path ≠ "/")
    (hlen : ¬ (path.drop 1).length > cfg.NAME_LENGTH)
    (hnew : findFile s.files path = none)
    (hspace : ¬ s.files.length ≥ cfg.NUM_DIR_ENTRIES) :
    (fuseMknod cfg s path mode now).1 = 0 ∧
    fuseGetattr (fuseMknod cfg s path mode now).2 path uid gid t =
      (0, { st_uid := uid, st_gid := gid, st_atime := t, st_mtime := t,
            st_mode := S_IFREG ||| 0o644, st_nlink := 1, st_size := 0 }) := by
  unfold fuseMknod
  rw [if_neg hlen, hnew]
  rw [if_neg (by simp), if_neg hspace]
  dsimp only
  refine ⟨rfl, ?_⟩
  unfold fuseGetattr
  rw [if_neg hroot]
  dsimp only
  rw [findFile_insert_self]

/-- C5 amended witness: creating `/a` with mode `0755` in the empty store
and then calling stat yields return 0, size 0 and mode `S_IFREG ||| 0644`. -/
theorem C5_create_then_stat_witness :
    "/a" ≠ "/" ∧ (fuseMknod cfgW initState "/a" 493 0).1 = 0 ∧
    fuseGetattr (fuseMknod cfgW initState "/a" 493 0).2 "/a" 1000 1000 7 =
      (0, { st_uid := 1000, st_gid := 1000, st_atime := 7, st_mtime := 7,
            st_mode := S_IFREG ||| 0o644, st_nlink := 1, st_size := 0 }) := by
  have h := C5_create_then_stat cfgW initState "/a" 493 0 1000 1000 7
    (by decide) (by decide) (by rfl) (by decide)
  exact ⟨by decide, h.1, h.2⟩

/-- C6 fails on the code (defect flagged in the specification's §9):
`fuseRename` reads `files.at(path)` without checking existence, so when
the source is absent the call throws an uncaught `std::out_of_range`
(modelled as `none`) instead of surfacing a `NotFound` error to the
caller — both on the empty store and, second conjunct, when the
destination exists (in which case the destination has even been erased
before the throw). -/
theorem C6_rename_missing_source_eval :
    fuseRename initState "/a" "/b" = none ∧
    fuseRename stW1 "/b" "/a" = none := by
  exact ⟨by rfl, by rfl⟩

/-- C7 as stated is false on the code: close on the existing file `/a`
with the open-file counter at 0 returns `-ENOENT` — exactly the same
error code that close on the absent file `/missing` returns — so the
underflow guard is not a distinct `InvalidState` error kind. -/
theorem C7_counterexample :
    (findFile stW1.files "/a").isSome ∧ stW1.openFilesCount = 0 ∧
    fuseRelease stW1 "/a" = (-ENOENT, stW1) ∧
    fuseRelease stW1 "/missing" = (-ENOENT, stW1) := by
  exact ⟨by rfl, by rfl, by rfl, by rfl⟩

/-- C7 amended: close on an existing file when the open-file counter is 0
fails with `-ENOENT` — the very code used for an absent file — and leaves
the state unchanged; the source has no distinct `InvalidState` code. -/
theorem C7_release_at_zero (s : FsState) (path : String)
    (hsome : (findFile s.files path).isSome) (h0 : s.openFilesCount = 0) :
    fuseRelease s path = (-ENOENT, s) := by
  unfold fuseRelease
  cases hf : findFile s.files path with
  | none => rw [hf] at hsome
  | some fi =>
      dsimp only
      rw [if_pos h0]

/-- C7 amended witness: closing `/a` in `stW1` (counter 0) returns
`-ENOENT` with the state unchanged. -/
theorem C7_release_at_zero_witness :
    (findFile stW1.files "/a").isSome ∧ stW1.openFilesCount = 0 ∧
    fuseRelease stW1 "/a" = (-ENOENT, stW1) :=
  ⟨by rfl, by rfl, C7_release_at_zero stW1 "/a" (by rfl) (by rfl)⟩

/-- C8: truncating an existing file to any size `k` (0 included) succeeds,
stores size exactly `k`, and a following stat reports `st_size = k`. -/
theorem C8_truncate_then_stat (s : FsState) (path : String) (k : Nat) (fi : MyFsFileInfo)
    (uid gid t : Nat) (hroot : path ≠ "/") (hfind : findFile s.files path = some fi) :
    (fuseTruncate s path k).1 = 0 ∧
    (findFile (fuseTruncate s path k).2.files path).map MyFsFileInfo.size = some k ∧
    (fuseGetattr (fuseTruncate s path k).2 path uid gid t).1 = 0 ∧
    (fuseGetattr (fuseTruncate s path k).2 path uid gid t).2.st_size = k := by
  unfold fuseTruncate
  rw [hfind]
  dsimp only
  refine ⟨rfl, ?_, ?_, ?_⟩
  · rw [findFile_insert_self]
    rfl
  · unfold fuseGetattr
    rw [if_neg hroot]
    dsimp only
    rw [findFile_insert_self]
  · unfold fuseGetattr
    rw [if_neg hroot]
    dsimp only
    rw [findFile_insert_self]

/-- C8 witness: truncating the empty file `/a` to 3 bytes succeeds, the
stored size becomes 3 and stat reports size 3. -/
theorem C8_truncate_then_stat_witness :
    "/a" ≠ "/" ∧ findFile stW1.files "/a" = some fiW ∧
    (fuseTruncate stW1 "/a" 3).1 = 0 ∧
    (findFile (fuseTruncate stW1 "/a" 3).2.files "/a").map MyFsFileInfo.size = some 3 ∧
    (fuseGetattr (fuseTruncate stW1 "/a" 3).2 "/a" 1000 1000 7).1 = 0 ∧
    (fuseGetattr (fuseTruncate stW1 "/a" 3).2 "/a" 1000 1000 7).2.st_size = 3 := by
  have h := C8_truncate_then_stat stW1 "/a" 3 fiW 1000 1000 7 (by decide) (by rfl)
  exact ⟨by decide, by rfl, h.1, h.2.1, h.2.2.1, h.2.2.2⟩

/-- C10: an in-bounds write (`offset + n ≤ stored size`, with the
buffer-length invariant) keeps the stored size, rewrites exactly the `n`
bytes at `offset` to `buf`, leaves every byte outside `[offset,
offset + n)` unchanged, leaves every other record untouched and does not
move the open-file counter; the updated record differs from the old one
only in its `data` field. -/
theorem C10_write_frame (s : FsState) (path : String) (buf : List Nat) (offset : Nat)
    (fi : MyFsFileInfo) (hfind : findFile s.files path = some fi)
    (hdl : fi.data.length = fi.size) (hfit : offset + buf.length ≤ fi.size) :
    (fuseWrite s path buf offset).1 = (buf.length : Int) ∧
    findFile (fuseWrite s path buf offset).2.files path
      = some { fi with data := writeBytes fi.data offset buf } ∧
    (writeBytes fi.data offset buf).length = fi.data.length ∧
    (∀ i, i < offset → (writeBytes fi.data offset buf)[i]? = fi.data[i]?) ∧
    (∀ i, offset + buf.length ≤ i → (writeBytes fi.data offset buf)[i]? = fi.data[i]?) ∧
    (∀ i, i < buf.length → (writeBytes fi.data offset buf)[offset + i]? = buf[i]?) ∧
    (∀ q, q ≠ path → findFile (fuseWrite s path buf offset).2.files q = findFile s.files q) ∧
    (fuseWrite s path buf offset).2.openFilesCount = s.openFilesCount := by
  have hfit2 : offset + buf.length ≤ fi.data.length := by omega
  have hng : ¬ fi.size < offset + buf.length := by omega
  unfold fuseWrite
  rw [hfind]
  dsimp only
  rw [if_neg hng]
  refine ⟨rfl, ?_, writeBytes_length _ _ _ hfit2, ?_, ?_, ?_, ?_, rfl⟩
  · rw [findFile_insert_self]
  · intro i hi
    exact writeBytes_getElem_lt _ _ _ i hi (by omega)
  · intro i hi
    exact writeBytes_getElem_ge _ _ _ i hi hfit2
  · intro i hi
    exact writeBytes_getElem_mid _ _ _ i hi (by omega)
  · intro q hq
    exact findFile_insert_ne _ _ _ _ hq

/-- C10 witness: writing the byte `[9]` at offset 1 into the four-byte
file `/a` of `stC10` returns 1, the record's buffer becomes
`[1, 9, 3, 4]` with the size still 4, bytes 0 and 2 are unchanged, byte 1
is the written one, and the counter is unmoved. -/
theorem C10_write_frame_witness :
    findFile stC10.files "/a" = some fiC10 ∧ fiC10.data.length = fiC10.size ∧
    1 + [9].length ≤ fiC10.size ∧
    (fuseWrite stC10 "/a" [9] 1).1 = 1 ∧
    findFile (fuseWrite stC10 "/a" [9] 1).2.files "/a"
      = some { fiC10 with data := [1, 9, 3, 4] } ∧
    (writeBytes fiC10.data 1 [9])[0]? = some 1 ∧
    (writeBytes fiC10.data 1 [9])[1]? = some 9 ∧
    (writeBytes fiC10.data 1 [9])[2]? = some 3 ∧
    (fuseWrite stC10 "/a" [9] 1).2.openFilesCount = stC10.openFilesCount := by
  have h := C10_write_frame stC10 "/a" [9] 1 fiC10 (by rfl) (by rfl) (by decide)
  refine ⟨by rfl, by rfl, by decide, h.1, ?_, ?_, ?_, ?_, h.2.2.2.2.2.2.2⟩
  · exact h.2.1
  · exact h.2.2.2.1 0 (by decide)
  · exact h.2.2.2.2.2.1 0 (by decide)
  · exact h.2.2.2.2.1 2 (by decide)
